import Mathlib

/-!
Verification model of the `flogg` file-backed logger (`logger.go`).

Strings from the Go source are modelled as lists of characters (`GoStr`);
Go byte/char operations on ASCII file names coincide with the character
operations used here.  Filesystem and clock interaction is modelled by an
explicit environment (`Env`): the current date string, the RFC3339
timestamp, the standard-library log header produced by `log.LstdFlags`,
the result of `File.Stat`, and whether `os.OpenFile` succeeds for a given
name.  Effects (file appends, console diagnostics, process exit) are
recorded in a trace; a Go runtime panic is modelled as `none`.
-/

/-- Go strings, modelled as lists of characters. -/
abbrev GoStr := List Char

/-- Embed a Lean string literal as a `GoStr`. -/
def strLit (s : String) : GoStr := s.toList

/-- Model of Go `strings.HasPrefix s pre`. -/
def hasPre : GoStr → GoStr → Bool
  | _, [] => true
  | [], _ :: _ => false
  | c :: cs, p :: ps => c == p && hasPre cs ps

/-- Model of Go `strings.HasSuffix s suf`. -/
def hasSuf (s suf : GoStr) : Bool := hasPre s.reverse suf.reverse

/-- Model of Go `strings.Split s sep` for a single-character separator:
splits at every occurrence of `sep`, always returning at least one part. -/
def splitOnChar (sep : Char) : GoStr → List GoStr
  | [] => [[]]
  | c :: cs =>
    let r := splitOnChar sep cs
    if c = sep then [] :: r
    else
      match r with
      | [] => [[c]]
      | h :: t => (c :: h) :: t

/-- Accumulate decimal digits, failing on a non-digit character
(the digit loop inside Go `strconv.Atoi`). -/
def digitsAcc : Nat → GoStr → Option Nat
  | acc, [] => some acc
  | acc, c :: cs => if c.isDigit then digitsAcc (acc * 10 + (c.toNat - 48)) cs else none

/-- Parse a non-empty all-digit string to a natural number. -/
def parseDigits : GoStr → Option Nat
  | [] => none
  | cs => digitsAcc 0 cs

/-- Shared body of `atoi`: parse the digits after an optional sign and
reject values outside the 64-bit integer range (Go `strconv.ErrRange`). -/
def atoiCore (neg : Bool) (ds : GoStr) : Option Int :=
  match parseDigits ds with
  | none => none
  | some n =>
    let v : Int := if neg then -(n : Int) else (n : Int)
    if -(2 ^ 63) ≤ v ∧ v < 2 ^ 63 then some v else none

/-- Model of Go `strconv.Atoi`. -/
def atoi : GoStr → Option Int
  | '+' :: rest => atoiCore false rest
  | '-' :: rest => atoiCore true rest
  | s => atoiCore false s

/-- The character of a single decimal digit. -/
def digitChar (n : Nat) : Char := Char.ofNat (48 + n)

/-- Decimal digits of a natural number, fuel-recursive so that it reduces
by `rfl`/`decide` (the fuel is always sufficient at `natRepr`'s call). -/
def natReprAux : Nat → Nat → GoStr
  | 0, _ => []
  | fuel + 1, n => if n < 10 then [digitChar n] else natReprAux fuel (n / 10) ++ [digitChar (n % 10)]

/-- Decimal rendering of a natural number (Go `fmt` `%d` on a non-negative value). -/
def natRepr (n : Nat) : GoStr := natReprAux (n + 1) n

/-- Decimal rendering of an integer (Go `fmt` `%d`). -/
def intRepr (i : Int) : GoStr := if i < 0 then '-' :: natRepr i.natAbs else natRepr i.natAbs

example : strLit ".log" = ['.', 'l', 'o', 'g'] := rfl
example : splitOnChar '_' (strLit "2025-1-5_12") = [strLit "2025-1-5", strLit "12"] := rfl
example : splitOnChar '_' (strLit "a_b_c") = [strLit "a", strLit "b", strLit "c"] := rfl
example : atoi (strLit "12") = some 12 := rfl
example : atoi (strLit "x") = none := rfl
example : atoi (strLit "-5") = some (-5) := rfl
example : natRepr 120 = strLit "120" := rfl
example : intRepr (-41) = strLit "-41" := rfl
example : hasPre (strLit "2025-1-5_1.log") (strLit "2025-1-5") = true := rfl
example : hasSuf (strLit "a.log") (strLit ".log") = true := rfl
example : hasSuf (strLit "a.txt") (strLit ".log") = false := rfl

/-- Go `LogLevel`: `Debug Info Warn Error Fatal = iota` (0..4). -/
inductive LogLevel where
  | debug
  | info
  | warn
  | error
  | fatal
deriving DecidableEq

/-- The integer value of a `LogLevel` constant (`iota` in the Go source). -/
def LogLevel.toInt : LogLevel → Int
  | .debug => 0
  | .info => 1
  | .warn => 2
  | .error => 3
  | .fatal => 4

/-- Go `LogFormat`: `LogFormatText`, `LogFormatJSON`. -/
inductive LogFormat where
  | text
  | json
deriving DecidableEq

/-- A field value (`interface\x7b\x7d` in the Go field maps).  `jbad` models a
value `encoding/json` cannot serialize (function, channel, ...): `txt` is its
`fmt` `%v` rendering, `errTxt` the text of the `json.Marshal` error. -/
inductive JVal where
  | jnull
  | jbool (b : Bool)
  | jint (n : Int)
  | jstr (s : GoStr)
  | jbad (txt errTxt : GoStr)
deriving DecidableEq

/-- A Go `map[string]interface\x7b\x7d` of structured fields, as an association
list; a real Go map has no duplicate keys (`List.Nodup` on the keys). -/
abbrev Fields := List (GoStr × JVal)

/-- Rendering of a field value by `fmt` verb `%v` (`%v` of `nil` is `<nil>`). -/
def jvalText : JVal → GoStr
  | .jnull => strLit "<nil>"
  | .jbool true => strLit "true"
  | .jbool false => strLit "false"
  | .jint n => intRepr n
  | .jstr s => s
  | .jbad txt _ => txt

/-- The `FileLogger` struct.  `currentFileName` is the base name of
`CurrentLogFile` (what `filepath.Base(l.CurrentLogFile.Name())` yields);
`fileLogGen` numbers the `FileLog` writer, bumped each time the Go code
builds a fresh `log.New` for a rotated file. -/
structure FileLogger where
  devMode : Bool
  logDir : GoStr
  currentFileName : GoStr
  fileLogGen : Nat
  maxLogAgeDays : Int
  minLevel : LogLevel
  format : LogFormat
deriving DecidableEq

/-- The environment a single log call runs in: clock-derived strings and
the filesystem's answers.  `today` is `fmt.Sprintf("%d-%d-%d", y, m, d)`
of `time.Now().Date()`; `rfc3339` is `time.Now().Format(time.RFC3339)`;
`stamp` is the `log.LstdFlags` header (date, time and trailing space) the
standard-library writer places before each line; `statSize` is the size
reported by `CurrentLogFile.Stat()` (`none` = stat error); `openOk` says
whether `os.OpenFile` succeeds on a given base name. -/
structure Env where
  today : GoStr
  rfc3339 : GoStr
  stamp : GoStr
  statSize : Option Int
  openOk : GoStr → Bool

/-- Assignment `m[k] = v` on a Go map modelled as an association list:
replace the binding of `k` when present, otherwise add it.  (A Go map is
unordered; the position of the binding is irrelevant, the serializer
sorts keys and the text formatter never goes through `mapSet`.) -/
def mapSet : List (GoStr × JVal) → GoStr → JVal → List (GoStr × JVal)
  | [], k, v => [(k, v)]
  | p :: rest, k, v => if p.1 = k then (k, v) :: rest else p :: mapSet rest k v

/-- Lookup in a Go map modelled as an association list. -/
def mapLookup (m : List (GoStr × JVal)) (k : GoStr) : Option JVal :=
  match m with
  | [] => none
  | p :: rest => if p.1 = k then some p.2 else mapLookup rest k

/-- The `for k, v := range fields` loop that copies `fields` into the
`entry` map, overwriting existing (reserved) keys. -/
def mergeFields (init : List (GoStr × JVal)) (fields : Fields) : List (GoStr × JVal) :=
  fields.foldl (fun m kv => mapSet m kv.1 kv.2) init

/-- The opening-brace character of a JSON object. -/
def openBrace : Char := Char.ofNat 123

/-- The closing-brace character of a JSON object. -/
def closeBrace : Char := Char.ofNat 125

/-- Lower-case hexadecimal digit. -/
def hexDigit (n : Nat) : Char := Char.ofNat (if n < 10 then 48 + n else 87 + n)

/-- Escaping of one character inside a JSON string, as `encoding/json`
does it with its default HTML escaping (`<`, `>`, `&` become `\u00..`;
control characters below 0x20 are `\u00XX`). -/
def escChar (c : Char) : GoStr :=
  if c = '"' then ['\\', '"']
  else if c = '\\' then ['\\', '\\']
  else if c = '\n' then ['\\', 'n']
  else if c = '\r' then ['\\', 'r']
  else if c = '\t' then ['\\', 't']
  else if c = '<' then strLit "\\u003c"
  else if c = '>' then strLit "\\u003e"
  else if c = '&' then strLit "\\u0026"
  else if c.toNat < 32 then ['\\', 'u', '0', '0', hexDigit (c.toNat / 16), hexDigit (c.toNat % 16)]
  else [c]

/-- Escape every character of a JSON string body. -/
def escStr (s : GoStr) : GoStr := s.flatMap escChar

/-- A JSON string literal: quote, escaped body, quote. -/
def renderStr (s : GoStr) : GoStr := '"' :: escStr s ++ ['"']

/-- Serialization of one JSON value.  `jbad` is never reached: `marshalMap`
reports the error before rendering. -/
def renderVal : JVal → GoStr
  | .jnull => strLit "null"
  | .jbool true => strLit "true"
  | .jbool false => strLit "false"
  | .jint n => intRepr n
  | .jstr s => renderStr s
  | .jbad _ _ => strLit "null"

/-- Join a list of strings with a separator (Go `strings.Join`). -/
def joinSep (sep : GoStr) : List GoStr → GoStr
  | [] => []
  | [x] => x
  | x :: y :: xs => x ++ sep ++ joinSep sep (y :: xs)

/-- One `"key":value` member of a JSON object. -/
def renderPair (p : GoStr × JVal) : GoStr := renderStr p.1 ++ ':' :: renderVal p.2

/-- A JSON object from a list of members. -/
def renderObj (m : List (GoStr × JVal)) : GoStr :=
  openBrace :: joinSep [','] (m.map renderPair) ++ [closeBrace]

/-- Byte-wise (here: code-point-wise) string order, the order in which
`encoding/json` sorts the keys of a Go map before serializing it. -/
def strLt : GoStr → GoStr → Bool
  | [], [] => false
  | [], _ :: _ => true
  | _ :: _, [] => false
  | a :: as, b :: bs =>
    if a.toNat < b.toNat then true
    else if b.toNat < a.toNat then false
    else strLt as bs

/-- Insertion step of the key sort. -/
def insertByKey (p : GoStr × JVal) : List (GoStr × JVal) → List (GoStr × JVal)
  | [] => [p]
  | q :: qs => if strLt p.1 q.1 then p :: q :: qs else q :: insertByKey p qs

/-- Sort the members of a map by key, as `json.Marshal` does. -/
def sortByKey (m : List (GoStr × JVal)) : List (GoStr × JVal) := m.foldr insertByKey []

/-- The error text of the first unserializable value, if any, in the
order `json.Marshal` visits the members. -/
def firstBadErr : List (GoStr × JVal) → Option GoStr
  | [] => none
  | (_, .jbad _ e) :: _ => some e
  | _ :: rest => firstBadErr rest

/-- Model of `json.Marshal` on the `entry` map: keys sorted, first
unserializable value aborts with its error. -/
def marshalMap (m : List (GoStr × JVal)) : Except GoStr GoStr :=
  let sorted := sortByKey m
  match firstBadErr sorted with
  | some e => .error e
  | none => .ok (renderObj sorted)

/-- The reserved keys `formatMessage` places in the `entry` map before
merging the fields (logger.go:182-186). -/
def reservedEntry (env : Env) (level message : GoStr) : List (GoStr × JVal) :=
  [(strLit "level", .jstr level), (strLit "message", .jstr message),
   (strLit "time", .jstr env.rfc3339)]

/-- `FileLogger.formatMessage` (logger.go:180-207): JSON mode builds the
`entry` map from the reserved keys plus the fields and marshals it,
degrading to `"LEVEL message fields_error=err"` when marshalling fails;
text mode is `"LEVEL message"` plus optional space-joined `k=v` tokens. -/
def formatMessage (fmtKind : LogFormat) (env : Env) (level message : GoStr) (fields : Fields) : GoStr :=
  match fmtKind with
  | .json =>
    let entry := mergeFields (reservedEntry env level message) fields
    match marshalMap entry with
    | .error e => level ++ ' ' :: message ++ strLit " fields_error=" ++ e
    | .ok s => s
  | .text =>
    match fields with
    | [] => level ++ ' ' :: message
    | _ =>
      level ++ ' ' :: message ++ ' ' ::
        joinSep [' '] (fields.map (fun p => p.1 ++ '=' :: jvalText p.2))

example :
    formatMessage .text
      ⟨strLit "2025-10-11", strLit "t", strLit "s", none, fun _ => true⟩
      (strLit "INFO") (strLit "hi") [(strLit "user_id", .jint 123)] =
    strLit "INFO hi user_id=123" := rfl

/-- The name `refreshLogFile` computes for the file to open, or why it
stops: `keep` is the early `return nil` below the size ceiling, `errStat`
a failed `Stat`, `errParse` a failed `strconv.Atoi`, and `crash` the
runtime panic of indexing `strings.Split(oldName, "_")[1]` when the split
produced a single part. -/
inductive NameDecision where
  | keep
  | newName (n : GoStr)
  | errStat
  | errParse
  | crash
deriving DecidableEq

/-- The decision core of `refreshLogFile` (logger.go:222-249): date
mismatch forces `<today>_1.log`; on a date match, a size below 10,000,000
keeps the current file, otherwise the sequence number parsed from the
filename (extension stripped, part after `_`) is incremented. -/
def refreshNewName (filename today : GoStr) (statSize : Option Int) : NameDecision :=
  if ¬ hasPre filename today then .newName (today ++ strLit "_1.log")
  else
    match statSize with
    | none => .errStat
    | some size =>
      if size < 10000000 then .keep
      else
        let oldName := filename.take (filename.length - 4)
        match (splitOnChar '_' oldName)[1]? with
        | none => .crash
        | some currNum =>
          match atoi currNum with
          | none => .errParse
          | some num => .newName (today ++ '_' :: intRepr (num + 1) ++ strLit ".log")

/-- Outcome of `refreshLogFile`: `ok` returns `nil` with the (possibly
swapped) logger, `fail` returns a non-nil error, `crash` is a panic. -/
inductive RefreshOut where
  | ok (l : FileLogger)
  | fail
  | crash
deriving DecidableEq

/-- `FileLogger.refreshLogFile` (logger.go:222-266): compute the target
name, open it (create/append), swap `CurrentLogFile` and build a fresh
`FileLog` writer before closing the old descriptor.  Any stat, parse or
open failure returns an error with the logger untouched. -/
def refreshLogFile (l : FileLogger) (env : Env) : RefreshOut :=
  match refreshNewName l.currentFileName env.today env.statSize with
  | .keep => .ok l
  | .errStat => .fail
  | .errParse => .fail
  | .crash => .crash
  | .newName n =>
    if env.openOk n then
      .ok { l with currentFileName := n, fileLogGen := l.fileLogGen + 1 }
    else .fail

/-- One observable side effect of a log call.  `fileAppend` is a write of
`line` to the log file `file`; `consoleLine` is the payload echoed to the
standard-library logger (the secondary diagnostic sink, which adds its own
header); `refreshFailDiag` is the `"FATAL failed refreshing log file"`
diagnostic; `exitProcess` is the `os.Exit(1)` inside `log.Fatal`. -/
inductive Effect where
  | fileAppend (file line : GoStr)
  | consoleLine (line : GoStr)
  | refreshFailDiag
  | exitProcess
deriving DecidableEq

/-- `FileLogger.logToFile` (logger.go:209-220): refresh the active file;
on error emit the diagnostic and drop the message; otherwise append one
line, which the `log.LstdFlags` writer renders as header + payload +
newline.  `none` models a propagating panic. -/
def logToFile (l : FileLogger) (env : Env) (message : GoStr) : Option (FileLogger × List Effect) :=
  match refreshLogFile l env with
  | .crash => none
  | .fail => some (l, [.refreshFailDiag])
  | .ok l' => some (l', [.fileAppend l'.currentFileName (env.stamp ++ message ++ ['\n'])])

/-- `FileLogger.LogDebugWith` (logger.go:168-178): filtered below
`minLevel`; writes to the file, and echoes to the console only in
`DevMode`. -/
def logDebugWith (l : FileLogger) (env : Env) (message : GoStr) (fields : Fields) :
    Option (FileLogger × List Effect) :=
  if l.minLevel.toInt > LogLevel.debug.toInt then some (l, [])
  else
    let formatted := formatMessage l.format env (strLit "DEBUG") message fields
    match logToFile l env formatted with
    | none => none
    | some (l', effs) =>
      if l.devMode then some (l', effs ++ [.consoleLine formatted]) else some (l', effs)

/-- `FileLogger.LogInfoWith` (logger.go:155-162): filtered below
`minLevel`; echoes to the console, then writes to the file. -/
def logInfoWith (l : FileLogger) (env : Env) (message : GoStr) (fields : Fields) :
    Option (FileLogger × List Effect) :=
  if l.minLevel.toInt > LogLevel.info.toInt then some (l, [])
  else
    let formatted := formatMessage l.format env (strLit "INFO") message fields
    match logToFile l env formatted with
    | none => none
    | some (l', effs) => some (l', .consoleLine formatted :: effs)

/-- `FileLogger.LogWarnWith` (logger.go:142-149): like Info, with level
string `"WARNING"`. -/
def logWarnWith (l : FileLogger) (env : Env) (message : GoStr) (fields : Fields) :
    Option (FileLogger × List Effect) :=
  if l.minLevel.toInt > LogLevel.warn.toInt then some (l, [])
  else
    let formatted := formatMessage l.format env (strLit "WARNING") message fields
    match logToFile l env formatted with
    | none => none
    | some (l', effs) => some (l', .consoleLine formatted :: effs)

/-- `FileLogger.LogErrorWith` (logger.go:129-136); `errMsg` is
`err.Error()`. -/
def logErrorWith (l : FileLogger) (env : Env) (errMsg : GoStr) (fields : Fields) :
    Option (FileLogger × List Effect) :=
  if l.minLevel.toInt > LogLevel.error.toInt then some (l, [])
  else
    let formatted := formatMessage l.format env (strLit "ERROR") errMsg fields
    match logToFile l env formatted with
    | none => none
    | some (l', effs) => some (l', .consoleLine formatted :: effs)

/-- `FileLogger.LogFatalWith` (logger.go:116-123): filter (vacuous for the
five levels), persist via `logToFile`, then `log.Fatal` echoes the line
and exits the process. -/
def logFatalWith (l : FileLogger) (env : Env) (errMsg : GoStr) (fields : Fields) :
    Option (FileLogger × List Effect) :=
  if l.minLevel.toInt > LogLevel.fatal.toInt then some (l, [])
  else
    let formatted := formatMessage l.format env (strLit "FATAL") errMsg fields
    match logToFile l env formatted with
    | none => none
    | some (l', effs) => some (l', effs ++ [.consoleLine formatted, .exitProcess])

/-- The lines appended to log files within a trace. -/
def fileLinesOf (effs : List Effect) : List GoStr :=
  effs.filterMap fun e =>
    match e with
    | .fileAppend _ line => some line
    | _ => none

/-- The directory entries whose names start with today's date string,
each stripped of its final four characters (`filename[:len(filename)-4]`),
in listing order — the `filteredFiles` slice of `getUserLogFile`. -/
def filteredStripped (files : List GoStr) (date : GoStr) : List GoStr :=
  (files.filter fun f => hasPre f date).map fun f => f.take (f.length - 4)

/-- The sequence value the selection loop reads from a stripped name:
`strings.Split(filename, "_")` must yield exactly two parts and
`strconv.Atoi` must accept the second. -/
def pickVal (w : GoStr) : Option Int :=
  match splitOnChar '_' w with
  | [_, second] => atoi second
  | _ => none

/-- Body of the selection loop of `getUserLogFile` (logger.go:358-371):
skip names that do not split into two parts or whose suffix does not
parse; a strictly larger value replaces the running maximum. -/
def pickStep (acc : Int × GoStr) (filename : GoStr) : Int × GoStr :=
  match pickVal filename with
  | none => acc
  | some num => if num > acc.1 then (num, filename) else acc

/-- Running maximum (initially 0) and chosen name (initially the first
filtered entry) after the whole selection loop; `<date>_1` when no entry
matched the date. -/
def selPick (files : List GoStr) (date : GoStr) : Int × GoStr :=
  match filteredStripped files date with
  | [] => (0, date ++ strLit "_1")
  | first :: _ => (filteredStripped files date).foldl pickStep (0, first)

/-- The stripped name `getUserLogFile` settles on. -/
def chosenStripped (files : List GoStr) (date : GoStr) : GoStr := (selPick files date).2

/-- The final running maximum of the selection loop. -/
def selMax (files : List GoStr) (date : GoStr) : Int := (selPick files date).1

/-- A file-open request: which name, and with which of the
`os.OpenFile` semantics flags. -/
structure OpenReq where
  name : GoStr
  create : Bool
  append : Bool
  truncate : Bool
deriving DecidableEq

/-- `getUserLogFile` (logger.go:333-383) as a function of the directory
listing and today's date string: filter on the date, strip extensions,
scan for the largest parseable `_<n>` suffix, fall back to `<date>_1`
when nothing matched the date, and open `<chosen>.log` with
`O_CREATE|O_WRONLY|O_APPEND` (create/append, never truncate). -/
def getUserLogFile (files : List GoStr) (date : GoStr) : OpenReq :=
  { name := chosenStripped files date ++ strLit ".log"
    create := true
    append := true
    truncate := false }

/-- A directory entry as the retention sweeper sees it: its name, whether
`f.Info()` succeeds, its modification time (seconds; only the order
matters), and whether `os.Remove` would succeed. -/
structure DirEntry where
  name : GoStr
  infoOk : Bool
  modTime : Int
  removeOk : Bool
deriving DecidableEq

/-- Observable actions of one retention sweep: `inspected` is a call to
`f.Info()`, `removed` a successful `os.Remove`, `removeFailedWarn` the
warning for a failed one. -/
inductive SweepEffect where
  | inspected (name : GoStr)
  | removed (name : GoStr)
  | removeFailedWarn (name : GoStr)
deriving DecidableEq

/-- The name an effect concerns. -/
def SweepEffect.name : SweepEffect → GoStr
  | .inspected n => n
  | .removed n => n
  | .removeFailedWarn n => n

/-- Per-entry body of the sweep loop (logger.go:313-328): names without
the `.log` suffix are passed over without inspection; `f.Info()` failure
skips the entry; an old enough file is removed, a removal failure only
warns. -/
def sweepEntry (cutoff : Int) (e : DirEntry) : List SweepEffect :=
  if ¬ hasSuf e.name (strLit ".log") then []
  else if ¬ e.infoOk then [.inspected e.name]
  else if e.modTime < cutoff then
    .inspected e.name :: (if e.removeOk then [.removed e.name] else [.removeFailedWarn e.name])
  else [.inspected e.name]

/-- `FileLogger.cleanupOldLogs` (logger.go:300-331): immediate success
when `MaxLogAgeDays <= 0`; a directory-listing failure aborts with an
error; otherwise every entry is processed and the sweep returns success.
`cutoff` is `time.Now().AddDate(0, 0, -maxAgeDays)`.  The returned `Bool`
is `true` when the Go function returns `nil`. -/
def cleanupOldLogs (maxAgeDays : Int) (readDirOk : Bool) (entries : List DirEntry)
    (cutoff : Int) : Bool × List SweepEffect :=
  if maxAgeDays ≤ 0 then (true, [])
  else if ¬ readDirOk then (false, [])
  else (true, entries.flatMap (sweepEntry cutoff))

/-- The names actually removed in a sweep trace. -/
def removedNames (effs : List SweepEffect) : List GoStr :=
  effs.filterMap fun e =>
    match e with
    | .removed n => some n
    | _ => none

/-- The names whose removal was attempted (successfully or not). -/
def removalAttempts (effs : List SweepEffect) : List GoStr :=
  effs.filterMap fun e =>
    match e with
    | .removed n => some n
    | .removeFailedWarn n => some n
    | _ => none

/-- The lifecycle state `Close` manipulates: `stopCleanup` is `none` for
a nil channel and otherwise carries whether the channel has already been
closed; `fileOpen` tracks `CurrentLogFile`. -/
structure CloseState where
  stopCleanup : Option Bool
  fileOpen : Bool
deriving DecidableEq

/-- The `stopCleanup`/file state `NewLogger` leaves behind
(logger.go:90-99): an allocated, not yet closed channel and an open file. -/
def newLoggerCloseState : CloseState := { stopCleanup := some false, fileOpen := true }

/-- `FileLogger.Close` (logger.go:270-282): `close(l.stopCleanup)` when
the channel is non-nil — a runtime panic (`none`) if it was already
closed — then close the file under the lock. -/
def closeLogger (s : CloseState) : Option CloseState :=
  match s.stopCleanup with
  | some true => none
  | some false => some { stopCleanup := some true, fileOpen := false }
  | none => some { s with fileOpen := false }

/-- The state after the first successful `Close` on a fresh logger. -/
def afterFirstClose : CloseState := { stopCleanup := some true, fileOpen := false }

/-- A concrete logger with `minLevel = Fatal` (text mode). -/
def cFixLogger : FileLogger :=
  { devMode := false
    logDir := strLit "logs"
    currentFileName := strLit "2025-10-11_1.log"
    fileLogGen := 0
    maxLogAgeDays := 0
    minLevel := .fatal
    format := .text }

/-- A concrete benign environment: date matches, small file, opens succeed. -/
def cFixEnv : Env :=
  { today := strLit "2025-10-11"
    rfc3339 := strLit "2025-10-11T10:30:00Z"
    stamp := strLit "2025/10/11 10:30:00 "
    statSize := some 0
    openOk := fun _ => true }

/-! ### Generic lemmas about the string model -/

lemma hasPre_nil (s : GoStr) : hasPre s [] = true := by cases s <;> rfl

lemma hasPre_append (a b : GoStr) : hasPre (a ++ b) a = true := by
  induction a with
  | nil => exact hasPre_nil b
  | cons c cs ih => simp [hasPre, ih]

lemma splitOnChar_no_sep (sep : Char) (b : GoStr) (h : sep ∉ b) : splitOnChar sep b = [b] := by
  induction b with
  | nil => rfl
  | cons c cs ih =>
    have hc : ¬ c = sep := fun hc => h (hc ▸ List.mem_cons_self c cs)
    have hcs : sep ∉ cs := fun hm => h (List.mem_cons_of_mem c hm)
    simp [splitOnChar, hc, ih hcs]

lemma splitOnChar_append (sep : Char) (a b : GoStr) (h : sep ∉ a) :
    splitOnChar sep (a ++ sep :: b) = a :: splitOnChar sep b := by
  induction a with
  | nil => simp [splitOnChar]
  | cons c cs ih =>
    have hc : ¬ c = sep := fun hc => h (hc ▸ List.mem_cons_self c cs)
    have hcs : sep ∉ cs := fun hm => h (List.mem_cons_of_mem c hm)
    simp [splitOnChar, hc, ih hcs]

lemma take_append_length (a b : GoStr) : (a ++ b).take ((a ++ b).length - b.length) = a := by
  have h : (a ++ b).length - b.length = a.length := by simp
  rw [h, List.take_left]

lemma getLast?_append_pair {α : Type} (xs : List α) (a b : α) :
    (xs ++ [a, b]).getLast? = some b := by
  have h : xs ++ [a, b] = (xs ++ [a]) ++ [b] := by simp
  rw [h, List.getLast?_concat]

/-- On a well-formed active name `<today>_<s>.log` (no underscore in
`today` or `s`), the parse step of `refreshLogFile` sees exactly `s`. -/
lemma refresh_parse_step (today s : GoStr) (h1 : ('_' : Char) ∉ today) (h2 : ('_' : Char) ∉ s) :
    ((splitOnChar '_' ((today ++ '_' :: s ++ strLit ".log").take
      ((today ++ '_' :: s ++ strLit ".log").length - 4)))[1]?) = some s := by
  have hsplit : today ++ '_' :: s ++ strLit ".log" = (today ++ '_' :: s) ++ strLit ".log" := by
    simp
  have htake : (today ++ '_' :: s ++ strLit ".log").take
      ((today ++ '_' :: s ++ strLit ".log").length - 4) = today ++ '_' :: s := by
    rw [hsplit]
    have h4 : (strLit ".log").length = 4 := rfl
    rw [← h4]
    exact take_append_length _ _
  rw [htake, splitOnChar_append '_' today s h1, splitOnChar_no_sep '_' s h2]
  rfl

/-- On a well-formed active name `<today>_<s>.log` and a size at the
ceiling, the rotation decision is the result of parsing `s`. -/
lemma refreshNewName_seq (today s : GoStr) (size : Int) (h1 : ('_' : Char) ∉ today)
    (h2 : ('_' : Char) ∉ s) (hsize : ¬ size < 10000000) :
    refreshNewName (today ++ '_' :: s ++ strLit ".log") today (some size) =
      match atoi s with
      | none => .errParse
      | some num => .newName (today ++ '_' :: intRepr (num + 1) ++ strLit ".log") := by
  rw [refreshNewName.eq_def]
  have hpre : hasPre (today ++ '_' :: s ++ strLit ".log") today = true := by
    rw [List.append_assoc]
    exact hasPre_append today ('_' :: (s ++ strLit ".log"))
  rw [hpre]
  rw [if_neg (by simp)]
  dsimp only
  rw [if_neg hsize]
  rw [refresh_parse_step today s h1 h2]

/-! ### C1: the rotation decision -/

/-- C1: before every write, the rotation decision is a function of the
active file name, today's date string and the active file's size: a date
mismatch always yields `<today>_1.log` (whatever `Stat` would say, hence
whatever the size); a date match below the 10,000,000-byte ceiling keeps
the very same logger (no error); a date match at or above the ceiling
parses the sequence number out of the name and increments it by one. -/
theorem c1_rotation_decision (l : FileLogger) (env : Env) (size : Int) (s : GoStr) (num : Int) :
    (hasPre l.currentFileName env.today = false →
      refreshNewName l.currentFileName env.today env.statSize =
        .newName (env.today ++ strLit "_1.log")) ∧
    (hasPre l.currentFileName env.today = false →
      env.openOk (env.today ++ strLit "_1.log") = true →
      refreshLogFile l env = .ok
        { l with currentFileName := env.today ++ strLit "_1.log",
                 fileLogGen := l.fileLogGen + 1 }) ∧
    (hasPre l.currentFileName env.today = true → env.statSize = some size →
      size < 10000000 → refreshLogFile l env = .ok l) ∧
    (l.currentFileName = env.today ++ '_' :: s ++ strLit ".log" →
      ('_' : Char) ∉ env.today → ('_' : Char) ∉ s → atoi s = some num →
      env.statSize = some size → ¬ size < 10000000 →
      refreshNewName l.currentFileName env.today env.statSize =
        .newName (env.today ++ '_' :: intRepr (num + 1) ++ strLit ".log")) := by
  refine ⟨fun h => ?_, fun h hopen => ?_, fun h hstat hsize => ?_,
    fun hname hu hus hparse hstat hsize => ?_⟩
  · simp [refreshNewName, h]
  · have hdec : refreshNewName l.currentFileName env.today env.statSize =
        .newName (env.today ++ strLit "_1.log") := by simp [refreshNewName, h]
    simp [refreshLogFile, hdec, hopen]
  · simp [refreshLogFile, refreshNewName, h, hstat, hsize]
  · rw [hname, hstat, refreshNewName_seq env.today s size hu hus hsize, hparse]

/-- A logger whose active file carries yesterday's date. -/
def cStaleLogger : FileLogger := { cFixLogger with currentFileName := strLit "2024-1-1_1.log" }

/-- A logger whose active file is today's `_2` file. -/
def cSeqLogger : FileLogger := { cFixLogger with currentFileName := strLit "2025-10-11_2.log" }

/-- An environment reporting the active file at the size ceiling. -/
def cFullEnv : Env := { cFixEnv with statSize := some 10000000 }

/-- Witness for C1: a stale date rotates to `<today>_1.log`; a matching
date below the ceiling keeps the logger; a matching date at the ceiling
bumps `_2` to `_3`. -/
theorem c1_witness :
    hasPre cStaleLogger.currentFileName cFixEnv.today = false ∧
    refreshLogFile cStaleLogger cFixEnv = .ok
      { cStaleLogger with currentFileName := strLit "2025-10-11" ++ strLit "_1.log",
                          fileLogGen := 1 } ∧
    refreshLogFile cFixLogger cFixEnv = .ok cFixLogger ∧
    refreshNewName cSeqLogger.currentFileName cFullEnv.today cFullEnv.statSize =
      .newName (strLit "2025-10-11" ++ '_' :: intRepr (2 + 1) ++ strLit ".log") :=
  ⟨by decide,
   (c1_rotation_decision cStaleLogger cFixEnv 0 [] 0).2.1 (by decide) rfl,
   (c1_rotation_decision cFixLogger cFixEnv 0 [] 0).2.2.1 (by decide) rfl (by decide),
   (c1_rotation_decision cSeqLogger cFullEnv 10000000 (strLit "2") 2).2.2.2
     (by decide) (by decide) (by decide) (by decide) rfl (by decide)⟩

/-! ### C4: a failed rotation drops the write and leaves the state alone -/

/-- C4: when rotation fails (`Stat` failure, `Atoi` failure on the
sequence number, or a failed open of the new file), `refreshLogFile`
returns an error without touching the logger, and the triggering
`logToFile` emits only the severe diagnostic: same logger, same handle
and writer, no bytes appended anywhere. -/
theorem c4_rotation_failure (l : FileLogger) (env : Env) (msg s : GoStr) (size : Int) :
    (refreshLogFile l env = .fail →
      logToFile l env msg = some (l, [Effect.refreshFailDiag])) ∧
    (hasPre l.currentFileName env.today = true → env.statSize = none →
      refreshLogFile l env = .fail) ∧
    (l.currentFileName = env.today ++ '_' :: s ++ strLit ".log" →
      ('_' : Char) ∉ env.today → ('_' : Char) ∉ s → atoi s = none →
      env.statSize = some size → ¬ size < 10000000 →
      refreshLogFile l env = .fail) ∧
    (∀ n, refreshNewName l.currentFileName env.today env.statSize = .newName n →
      env.openOk n = false → refreshLogFile l env = .fail) := by
  refine ⟨fun h => ?_, fun h hstat => ?_,
    fun hname hu hus hparse hstat hsize => ?_, fun n hdec hopen => ?_⟩
  · simp [logToFile, h]
  · simp [refreshLogFile, refreshNewName, h, hstat]
  · have hdec : refreshNewName l.currentFileName env.today env.statSize = .errParse := by
      rw [hname, hstat, refreshNewName_seq env.today s size hu hus hsize, hparse]
    simp [refreshLogFile, hdec]
  · simp [refreshLogFile, hdec, hopen]

/-- An environment in which `Stat` on the active file fails. -/
def cStatFailEnv : Env := { cFixEnv with statSize := none }

/-- A logger whose active name has an unparseable sequence suffix. -/
def cBadSeqLogger : FileLogger := { cFixLogger with currentFileName := strLit "2025-10-11_x.log" }

/-- An environment in which every open fails. -/
def cOpenFailEnv : Env := { cFixEnv with openOk := fun _ => false }

/-- Witness for C4: a stat failure, a parse failure and an open failure
each yield an error, and the triggering write then only emits the
diagnostic with the logger unchanged. -/
theorem c4_witness :
    refreshLogFile cFixLogger cStatFailEnv = .fail ∧
    logToFile cFixLogger cStatFailEnv (strLit "INFO hello") =
      some (cFixLogger, [Effect.refreshFailDiag]) ∧
    refreshLogFile cBadSeqLogger cFullEnv = .fail ∧
    refreshLogFile cStaleLogger cOpenFailEnv = .fail :=
  ⟨(c4_rotation_failure cFixLogger cStatFailEnv (strLit "INFO hello") [] 0).2.1
     (by decide) rfl,
   (c4_rotation_failure cFixLogger cStatFailEnv (strLit "INFO hello") [] 0).1
     ((c4_rotation_failure cFixLogger cStatFailEnv (strLit "INFO hello") [] 0).2.1
       (by decide) rfl),
   (c4_rotation_failure cBadSeqLogger cFullEnv (strLit "m") (strLit "x") 10000000).2.2.1
     (by decide) (by decide) (by decide) (by decide) rfl (by decide),
   (c4_rotation_failure cStaleLogger cOpenFailEnv (strLit "m") [] 0).2.2.2
     (strLit "2025-10-11" ++ strLit "_1.log") (by decide) rfl⟩

/-! ### C5: Close is claimed idempotent, but a second Close panics -/

/-- C5: the claim says closing twice must not panic.  On the code, the
first `Close` on a fresh logger succeeds (stopping the sweeper and
closing the file), but the second reaches `close(l.stopCleanup)` with an
already-closed channel, which is a Go runtime panic (`none`): the code
contradicts the documented idempotence. -/
theorem c5_close_twice_panics :
    closeLogger newLoggerCloseState = some afterFirstClose ∧
    closeLogger afterFirstClose = none := by
  exact ⟨rfl, rfl⟩

/-! ### C2: events below `minLevel` have no side effect at all -/

/-- C2: a log call whose level is strictly below the configured
`minLevel` returns immediately: the logger state is unchanged and the
effect trace is empty — no formatting, no file append, no rotation, no
console echo. -/
theorem c2_filtered_no_side_effect (l : FileLogger) (env : Env) (msg errMsg : GoStr)
    (fields : Fields) :
    (LogLevel.debug.toInt < l.minLevel.toInt → logDebugWith l env msg fields = some (l, [])) ∧
    (LogLevel.info.toInt < l.minLevel.toInt → logInfoWith l env msg fields = some (l, [])) ∧
    (LogLevel.warn.toInt < l.minLevel.toInt → logWarnWith l env msg fields = some (l, [])) ∧
    (LogLevel.error.toInt < l.minLevel.toInt → logErrorWith l env errMsg fields = some (l, [])) := by
  refine ⟨fun h => ?_, fun h => ?_, fun h => ?_, fun h => ?_⟩ <;>
    simp [logDebugWith, logInfoWith, logWarnWith, logErrorWith, h]

/-- Witness for C2 at a logger with `minLevel = Fatal`. -/
theorem c2_witness :
    LogLevel.error.toInt < LogLevel.fatal.toInt ∧
    logDebugWith cFixLogger cFixEnv (strLit "m") [] = some (cFixLogger, []) ∧
    logInfoWith cFixLogger cFixEnv (strLit "m") [] = some (cFixLogger, []) ∧
    logWarnWith cFixLogger cFixEnv (strLit "m") [] = some (cFixLogger, []) ∧
    logErrorWith cFixLogger cFixEnv (strLit "e") [] = some (cFixLogger, []) :=
  ⟨by decide,
   (c2_filtered_no_side_effect cFixLogger cFixEnv (strLit "m") (strLit "e") []).1 (by decide),
   (c2_filtered_no_side_effect cFixLogger cFixEnv (strLit "m") (strLit "e") []).2.1 (by decide),
   (c2_filtered_no_side_effect cFixLogger cFixEnv (strLit "m") (strLit "e") []).2.2.1 (by decide),
   (c2_filtered_no_side_effect cFixLogger cFixEnv (strLit "m") (strLit "e") []).2.2.2 (by decide)⟩

/-! ### Lemmas about the modelled Go map -/

lemma mapLookup_eq_none (m : List (GoStr × JVal)) (k : GoStr)
    (h : k ∉ m.map Prod.fst) : mapLookup m k = none := by
  induction m with
  | nil => rfl
  | cons p rest ih =>
    have hk : ¬ p.1 = k := fun he => h (by
      simp only [List.map_cons]
      exact List.mem_cons.mpr (Or.inl he.symm))
    have hrest : k ∉ rest.map Prod.fst := fun hm => h (by
      simp only [List.map_cons]
      exact List.mem_cons.mpr (Or.inr hm))
    simp [mapLookup, hk, ih hrest]

lemma mapLookup_mem (m : List (GoStr × JVal)) (k : GoStr) (v : JVal)
    (h : mapLookup m k = some v) : (k, v) ∈ m := by
  induction m with
  | nil => cases h
  | cons p rest ih =>
    rw [mapLookup] at h
    by_cases hk : p.1 = k
    · rw [if_pos hk] at h
      have : p = (k, v) := by
        cases p
        simp_all
      simp [this]
    · rw [if_neg hk] at h
      exact List.mem_cons_of_mem p (ih h)

lemma mapSet_lookup_self (m : List (GoStr × JVal)) (k : GoStr) (v : JVal) :
    mapLookup (mapSet m k v) k = some v := by
  induction m with
  | nil => simp [mapSet, mapLookup]
  | cons p rest ih =>
    by_cases hk : p.1 = k
    · simp [mapSet, hk, mapLookup]
    · simp [mapSet, hk, mapLookup, ih]

lemma mapSet_lookup_other (m : List (GoStr × JVal)) (k k' : GoStr) (v : JVal) (h : k' ≠ k) :
    mapLookup (mapSet m k v) k' = mapLookup m k' := by
  have hkk : ¬ k = k' := fun he => h he.symm
  induction m with
  | nil => simp [mapSet, mapLookup, hkk]
  | cons p rest ih =>
    by_cases hk : p.1 = k
    · simp [mapSet, hk, mapLookup, hkk]
    · simp [mapSet, hk, mapLookup, ih]

/-- The `entry` map after the field-merge loop: a key bound in `fields`
(unique keys, as in a Go map) carries the field's value — reserved keys
included, this is the overwrite — and any other key keeps its `init`
binding. -/
lemma mergeFields_lookup (fields : Fields) (init : List (GoStr × JVal))
    (hnd : (fields.map Prod.fst).Nodup) (k : GoStr) :
    mapLookup (mergeFields init fields) k =
      match mapLookup fields k with
      | some v => some v
      | none => mapLookup init k := by
  induction fields generalizing init with
  | nil => rfl
  | cons kv rest ih =>
    rw [List.map_cons, List.nodup_cons] at hnd
    have hstep : mergeFields init (kv :: rest) = mergeFields (mapSet init kv.1 kv.2) rest := rfl
    rw [hstep, ih (mapSet init kv.1 kv.2) hnd.2]
    by_cases hk : kv.1 = k
    · subst hk
      have hrest : mapLookup rest kv.1 = none :=
        mapLookup_eq_none rest kv.1 hnd.1
      rw [hrest, mapSet_lookup_self]
      simp [mapLookup]
    · have hhead : mapLookup (kv :: rest) k = mapLookup rest k := by
        simp [mapLookup, hk]
      rw [hhead]
      cases hr : mapLookup rest k with
      | some v => rfl
      | none => exact mapSet_lookup_other init kv.1 k kv.2 fun he => hk he.symm

/-- Keys absent from `fields` keep their `init` binding (no uniqueness
needed). -/
lemma mergeFields_lookup_not_mem (fields : Fields) (init : List (GoStr × JVal)) (k : GoStr)
    (h : k ∉ fields.map Prod.fst) :
    mapLookup (mergeFields init fields) k = mapLookup init k := by
  induction fields generalizing init with
  | nil => rfl
  | cons kv rest ih =>
    have hk : k ≠ kv.1 := fun he => h (by
      simp only [List.map_cons]
      exact List.mem_cons.mpr (Or.inl he))
    have hrest : k ∉ rest.map Prod.fst := fun hm => h (by
      simp only [List.map_cons]
      exact List.mem_cons.mpr (Or.inr hm))
    have hstep : mergeFields init (kv :: rest) = mergeFields (mapSet init kv.1 kv.2) rest := rfl
    rw [hstep, ih (mapSet init kv.1 kv.2) hrest, mapSet_lookup_other init kv.1 k kv.2 hk]

/-! ### Character-level lemmas: the serialized object stays on one line -/

lemma charOfNat_small : ∀ k, k < 128 → (Char.ofNat k).toNat = k := by decide

lemma natReprAux_digit (fuel : Nat) : ∀ n, ∀ c ∈ natReprAux fuel n,
    48 ≤ c.toNat ∧ c.toNat ≤ 57 := by
  induction fuel with
  | zero => intro n c hc; cases hc
  | succ fuel ih =>
    intro n c hc
    rw [natReprAux] at hc
    by_cases h : n < 10
    · rw [if_pos h] at hc
      rcases List.mem_singleton.mp hc with rfl
      have : (digitChar n).toNat = 48 + n := charOfNat_small (48 + n) (by omega)
      rw [digitChar] at *
      omega
    · rw [if_neg h] at hc
      rcases List.mem_append.mp hc with hc | hc
      · exact ih (n / 10) c hc
      · rcases List.mem_singleton.mp hc with rfl
        have hm : n % 10 < 10 := Nat.mod_lt n (by norm_num)
        have : (digitChar (n % 10)).toNat = 48 + n % 10 := charOfNat_small _ (by omega)
        rw [digitChar] at *
        omega

lemma intRepr_ne_newline (i : Int) : ∀ c ∈ intRepr i, c.toNat ≠ 10 := by
  intro c hc
  rw [intRepr] at hc
  by_cases h : i < 0
  · rw [if_pos h] at hc
    rcases List.mem_cons.mp hc with rfl | hc
    · decide
    · have := natReprAux_digit (i.natAbs + 1) i.natAbs c hc
      omega
  · rw [if_neg h] at hc
    have := natReprAux_digit (i.natAbs + 1) i.natAbs c hc
    omega

lemma hexDigit_ne_newline : ∀ k, k < 16 → (hexDigit k).toNat ≠ 10 := by decide

lemma all_ne_newline (s : GoStr) (h : (s.all fun d => decide (d.toNat ≠ 10)) = true) :
    ∀ d ∈ s, d.toNat ≠ 10 := fun d hd => of_decide_eq_true (List.all_eq_true.mp h d hd)

lemma escChar_ne_newline (c : Char) : ∀ d ∈ escChar c, d.toNat ≠ 10 := by
  intro d hd
  rw [escChar] at hd
  by_cases h1 : c = '"'
  · rw [if_pos h1] at hd; rcases List.mem_cons.mp hd with rfl | hd
    · decide
    · rcases List.mem_singleton.mp hd with rfl; decide
  rw [if_neg h1] at hd
  by_cases h2 : c = '\\'
  · rw [if_pos h2] at hd; rcases List.mem_cons.mp hd with rfl | hd
    · decide
    · rcases List.mem_singleton.mp hd with rfl; decide
  rw [if_neg h2] at hd
  by_cases h3 : c = '\n'
  · rw [if_pos h3] at hd; rcases List.mem_cons.mp hd with rfl | hd
    · decide
    · rcases List.mem_singleton.mp hd with rfl; decide
  rw [if_neg h3] at hd
  by_cases h4 : c = '\r'
  · rw [if_pos h4] at hd; rcases List.mem_cons.mp hd with rfl | hd
    · decide
    · rcases List.mem_singleton.mp hd with rfl; decide
  rw [if_neg h4] at hd
  by_cases h5 : c = '\t'
  · rw [if_pos h5] at hd; rcases List.mem_cons.mp hd with rfl | hd
    · decide
    · rcases List.mem_singleton.mp hd with rfl; decide
  rw [if_neg h5] at hd
  by_cases h6 : c = '<'
  · rw [if_pos h6] at hd; exact all_ne_newline _ (by decide) d hd
  rw [if_neg h6] at hd
  by_cases h7 : c = '>'
  · rw [if_pos h7] at hd; exact all_ne_newline _ (by decide) d hd
  rw [if_neg h7] at hd
  by_cases h8 : c = '&'
  · rw [if_pos h8] at hd; exact all_ne_newline _ (by decide) d hd
  rw [if_neg h8] at hd
  by_cases h9 : c.toNat < 32
  · rw [if_pos h9] at hd
    rcases List.mem_cons.mp hd with rfl | hd
    · decide
    rcases List.mem_cons.mp hd with rfl | hd
    · decide
    rcases List.mem_cons.mp hd with rfl | hd
    · decide
    rcases List.mem_cons.mp hd with rfl | hd
    · decide
    rcases List.mem_cons.mp hd with rfl | hd
    · exact hexDigit_ne_newline (c.toNat / 16) (by omega)
    rcases List.mem_singleton.mp hd with rfl
    exact hexDigit_ne_newline (c.toNat % 16) (Nat.mod_lt _ (by norm_num))
  · rw [if_neg h9] at hd
    rcases List.mem_singleton.mp hd with rfl
    omega

lemma mem_joinSep (sep : GoStr) (xs : List GoStr) (c : Char) (h : c ∈ joinSep sep xs) :
    c ∈ sep ∨ ∃ x ∈ xs, c ∈ x := by
  induction xs with
  | nil => cases h
  | cons x xs ih =>
    cases xs with
    | nil =>
      rw [joinSep] at h
      exact Or.inr ⟨x, List.mem_cons_self x [], h⟩
    | cons y ys =>
      rw [joinSep] at h
      rcases List.mem_append.mp h with h | h
      · rcases List.mem_append.mp h with h | h
        · exact Or.inr ⟨x, List.mem_cons_self x (y :: ys), h⟩
        · exact Or.inl h
      · rcases ih h with h | ⟨z, hz, hcz⟩
        · exact Or.inl h
        · exact Or.inr ⟨z, List.mem_cons_of_mem x hz, hcz⟩

lemma renderStr_ne_newline (s : GoStr) : ∀ c ∈ renderStr s, c.toNat ≠ 10 := by
  intro c hc
  rw [renderStr] at hc
  rcases List.mem_cons.mp hc with rfl | hc
  · decide
  rcases List.mem_append.mp hc with hc | hc
  · rcases List.mem_flatMap.mp hc with ⟨a, _, hca⟩
    exact escChar_ne_newline a c hca
  · rcases List.mem_singleton.mp hc with rfl
    decide

lemma renderVal_ne_newline (v : JVal) : ∀ c ∈ renderVal v, c.toNat ≠ 10 := by
  intro c hc
  cases v with
  | jnull => rw [renderVal] at hc; exact all_ne_newline _ (by decide) c hc
  | jbool b =>
    cases b <;> rw [renderVal] at hc <;> exact all_ne_newline _ (by decide) c hc
  | jint n => exact intRepr_ne_newline n c hc
  | jstr s => exact renderStr_ne_newline s c hc
  | jbad t e => rw [renderVal] at hc; exact all_ne_newline _ (by decide) c hc

lemma renderPair_ne_newline (p : GoStr × JVal) : ∀ c ∈ renderPair p, c.toNat ≠ 10 := by
  intro c hc
  rw [renderPair] at hc
  rcases List.mem_append.mp hc with hc | hc
  · exact renderStr_ne_newline p.1 c hc
  · rcases List.mem_cons.mp hc with rfl | hc
    · decide
    · exact renderVal_ne_newline p.2 c hc

lemma renderObj_ne_newline (m : List (GoStr × JVal)) : ∀ c ∈ renderObj m, c.toNat ≠ 10 := by
  intro c hc
  rw [renderObj] at hc
  rcases List.mem_cons.mp hc with rfl | hc
  · decide
  rcases List.mem_append.mp hc with hc | hc
  · rcases mem_joinSep [','] (m.map renderPair) c hc with h | ⟨x, hx, hcx⟩
    · rcases List.mem_singleton.mp h with rfl; decide
    · rcases List.mem_map.mp hx with ⟨p, _, rfl⟩
      exact renderPair_ne_newline p c hcx
  · rcases List.mem_singleton.mp hc with rfl
    decide

/-- The serialized JSON object contains no newline: it is one line. -/
lemma newline_not_mem_renderObj (m : List (GoStr × JVal)) : ('\n' : Char) ∉ renderObj m :=
  fun hm => renderObj_ne_newline m '\n' hm (by decide)

/-! ### C9: the JSON line -/

/-- C9: for an accepted event in JSON mode the `entry` map holds the
reserved `level`, `message` and `time` keys plus every supplied field
with its original value — a field key equal to a reserved key overwrites
the reserved value; when every value serializes, the formatted output is
the one-line (newline-free) JSON object over the key-sorted entry map,
and when serialization fails it degrades to
`<LEVEL> <message> fields_error=<err>`. -/
theorem c9_json_format (env : Env) (level msg : GoStr) (fields : Fields)
    (hnd : (fields.map Prod.fst).Nodup) :
    (∀ k, mapLookup (mergeFields (reservedEntry env level msg) fields) k =
      match mapLookup fields k with
      | some v => some v
      | none => mapLookup (reservedEntry env level msg) k) ∧
    (firstBadErr (sortByKey (mergeFields (reservedEntry env level msg) fields)) = none →
      formatMessage .json env level msg fields =
        renderObj (sortByKey (mergeFields (reservedEntry env level msg) fields)) ∧
      ('\n' : Char) ∉
        renderObj (sortByKey (mergeFields (reservedEntry env level msg) fields))) ∧
    (∀ e, firstBadErr (sortByKey (mergeFields (reservedEntry env level msg) fields)) = some e →
      formatMessage .json env level msg fields =
        level ++ ' ' :: msg ++ strLit " fields_error=" ++ e) := by
  refine ⟨fun k => mergeFields_lookup fields (reservedEntry env level msg) hnd k,
    fun h => ⟨?_, newline_not_mem_renderObj _⟩, fun e h => ?_⟩
  · simp [formatMessage, marshalMap, h]
  · simp [formatMessage, marshalMap, h]

/-- The structured fields of the C9 witness (the spec's own example). -/
def cFields : Fields :=
  [(strLit "user_id", .jint 123), (strLit "action", .jstr (strLit "login")),
   (strLit "ip", .jstr (strLit "192.168.1.1"))]

/-- A field map holding a value `json.Marshal` rejects. -/
def cBadFields : Fields :=
  [(strLit "f", .jbad (strLit "0x1") (strLit "json: unsupported type: chan int"))]

/-- Witness for C9 on the spec's example event: the reserved keys and
all three fields are present with their original values, the output is
the sorted one-line object, and a map with an unserializable value
degrades to the `fields_error` text. -/
theorem c9_witness :
    mapLookup (mergeFields (reservedEntry cFixEnv (strLit "INFO") (strLit "user logged in"))
        cFields) (strLit "level") = some (.jstr (strLit "INFO")) ∧
    mapLookup (mergeFields (reservedEntry cFixEnv (strLit "INFO") (strLit "user logged in"))
        cFields) (strLit "user_id") = some (.jint 123) ∧
    formatMessage .json cFixEnv (strLit "INFO") (strLit "user logged in") cFields =
      renderObj (sortByKey (mergeFields
        (reservedEntry cFixEnv (strLit "INFO") (strLit "user logged in")) cFields)) ∧
    ('\n' : Char) ∉ renderObj (sortByKey (mergeFields
        (reservedEntry cFixEnv (strLit "INFO") (strLit "user logged in")) cFields)) ∧
    formatMessage .json cFixEnv (strLit "INFO") (strLit "m") cBadFields =
      strLit "INFO" ++ ' ' :: strLit "m" ++ strLit " fields_error=" ++
        strLit "json: unsupported type: chan int" := by
  have h := c9_json_format cFixEnv (strLit "INFO") (strLit "user logged in") cFields (by decide)
  have hbad := c9_json_format cFixEnv (strLit "INFO") (strLit "m") cBadFields (by decide)
  exact ⟨(h.1 (strLit "level")).trans (by decide),
    (h.1 (strLit "user_id")).trans (by decide),
    (h.2.1 (by decide)).1,
    (h.2.1 (by decide)).2,
    hbad.2.2 (strLit "json: unsupported type: chan int") (by decide)⟩

/-! ### C3: startup file selection -/

/-- Invariant of the selection loop: the fold either leaves the
accumulator untouched (and then no entry parses to a value above it) or
lands on an entry of the list whose parsed value strictly beats the
accumulator and bounds every other parsed value. -/
lemma pickFold_spec (ws : List GoStr) (acc : Int × GoStr) :
    (ws.foldl pickStep acc = acc ∧ ∀ u ∈ ws, ∀ n : Int, pickVal u = some n → n ≤ acc.1) ∨
    (∃ w ∈ ws, ∃ m : Int, pickVal w = some m ∧ ws.foldl pickStep acc = (m, w) ∧ acc.1 < m ∧
      ∀ u ∈ ws, ∀ n : Int, pickVal u = some n → n ≤ m) := by
  induction ws generalizing acc with
  | nil => exact Or.inl ⟨rfl, by simp⟩
  | cons w ws ih =>
    have hstep : (w :: ws).foldl pickStep acc = ws.foldl pickStep (pickStep acc w) := rfl
    cases hv : pickVal w with
    | none =>
      have hs : pickStep acc w = acc := by simp [pickStep, hv]
      rcases ih acc with ⟨hfold, hbound⟩ | ⟨w', hw', m, hpv, hfold, hlt, hbound⟩
      · refine Or.inl ⟨by rw [hstep, hs, hfold], ?_⟩
        intro u hu n hn
        rcases List.mem_cons.mp hu with rfl | hu
        · rw [hv] at hn; cases hn
        · exact hbound u hu n hn
      · refine Or.inr ⟨w', List.mem_cons_of_mem w hw', m, hpv, by rw [hstep, hs, hfold], hlt, ?_⟩
        intro u hu n hn
        rcases List.mem_cons.mp hu with rfl | hu
        · rw [hv] at hn; cases hn
        · exact hbound u hu n hn
    | some num =>
      by_cases hgt : num > acc.1
      · have hs : pickStep acc w = (num, w) := by simp [pickStep, hv, hgt]
        rcases ih (num, w) with ⟨hfold, hbound⟩ | ⟨w', hw', m, hpv, hfold, hlt, hbound⟩
        · refine Or.inr ⟨w, List.mem_cons_self w ws, num, hv, by rw [hstep, hs, hfold], hgt, ?_⟩
          intro u hu n hn
          rcases List.mem_cons.mp hu with rfl | hu
          · rw [hv] at hn; exact le_of_eq (Option.some.inj hn).symm
          · exact hbound u hu n hn
        · refine Or.inr ⟨w', List.mem_cons_of_mem w hw', m, hpv, by rw [hstep, hs, hfold],
            lt_trans hgt hlt, ?_⟩
          intro u hu n hn
          rcases List.mem_cons.mp hu with rfl | hu
          · rw [hv] at hn
            exact le_of_lt ((Option.some.inj hn) ▸ hlt)
          · exact hbound u hu n hn
      · have hs : pickStep acc w = acc := by simp [pickStep, hv, hgt]
        rcases ih acc with ⟨hfold, hbound⟩ | ⟨w', hw', m, hpv, hfold, hlt, hbound⟩
        · refine Or.inl ⟨by rw [hstep, hs, hfold], ?_⟩
          intro u hu n hn
          rcases List.mem_cons.mp hu with rfl | hu
          · rw [hv] at hn
            exact (Option.some.inj hn) ▸ le_of_not_lt hgt
          · exact hbound u hu n hn
        · refine Or.inr ⟨w', List.mem_cons_of_mem w hw', m, hpv, by rw [hstep, hs, hfold], hlt, ?_⟩
          intro u hu n hn
          rcases List.mem_cons.mp hu with rfl | hu
          · rw [hv] at hn
            exact le_of_lt (lt_of_le_of_lt ((Option.some.inj hn) ▸ le_of_not_lt hgt) hlt)
          · exact hbound u hu n hn

/-- C3 counterexample: a directory holding only `2025-10-11_x.log` — an
entry that starts with today's date but whose suffix does not parse.
The claim's reading (parse failures are non-matching, so no candidate
exists) predicts `<today>_1.log`, but the code keeps the unparseable
entry as its initial fallback and opens `2025-10-11_x.log`. -/
theorem c3_counterexample :
    (getUserLogFile [strLit "2025-10-11_x.log"] (strLit "2025-10-11")).name =
      strLit "2025-10-11_x.log" ∧
    strLit "2025-10-11_x.log" ≠ strLit "2025-10-11_1.log" := by
  exact ⟨by decide, by decide⟩

/-- C3 amended: on an empty listing — in fact whenever no entry starts
with today's date string — the selection synthesizes `<today>_1.log`.
Otherwise it always settles on one of the date-matching entries (stripped
of the last four characters): the one attaining the largest parsed
`_<n>` suffix when some entry parses to a positive value, and the first
date-matching entry as a fallback when none does (rather than
synthesizing `<today>_1`).  The file is opened create/append, never
truncated. -/
theorem c3_selection_amended (files : List GoStr) (date : GoStr) :
    (filteredStripped files date = [] →
      getUserLogFile files date =
        { name := date ++ strLit "_1" ++ strLit ".log",
          create := true, append := true, truncate := false }) ∧
    (filteredStripped files date ≠ [] →
      chosenStripped files date ∈ filteredStripped files date) ∧
    (∀ u ∈ filteredStripped files date, ∀ n : Int, pickVal u = some n →
      n ≤ selMax files date) ∧
    (0 < selMax files date →
      pickVal (chosenStripped files date) = some (selMax files date)) ∧
    (∀ first rest, filteredStripped files date = first :: rest → selMax files date ≤ 0 →
      chosenStripped files date = first) ∧
    ((getUserLogFile files date).name = chosenStripped files date ++ strLit ".log" ∧
      (getUserLogFile files date).create = true ∧
      (getUserLogFile files date).append = true ∧
      (getUserLogFile files date).truncate = false) := by
  refine ⟨fun h => ?_, fun h => ?_, fun u hu n hn => ?_, fun h => ?_,
    fun first rest hf h0 => ?_, rfl, rfl, rfl, rfl⟩
  · simp [getUserLogFile, chosenStripped, selPick, h]
  · obtain ⟨first, rest, hf⟩ : ∃ first rest, filteredStripped files date = first :: rest := by
      cases hc : filteredStripped files date with
      | nil => exact absurd hc h
      | cons a b => exact ⟨a, b, rfl⟩
    have hsel : selPick files date = (filteredStripped files date).foldl pickStep (0, first) := by
      rw [selPick, hf]
    rcases pickFold_spec (filteredStripped files date) (0, first) with ⟨hfold, _⟩ |
        ⟨w, hw, m, _, hfold, _, _⟩
    · rw [chosenStripped, hsel, hfold, hf]
      exact List.mem_cons_self first rest
    · rw [chosenStripped, hsel, hfold]
      exact hw
  · cases hc : filteredStripped files date with
    | nil => rw [hc] at hu; cases hu
    | cons first rest =>
      have hsel : selPick files date = (filteredStripped files date).foldl pickStep (0, first) := by
        rw [selPick, hc]
      rcases pickFold_spec (filteredStripped files date) (0, first) with ⟨hfold, hbound⟩ |
          ⟨w, hw, m, hpv, hfold, hlt, hbound⟩
      · have : n ≤ (0 : Int) := hbound u hu n hn
        rw [selMax, hsel, hfold]
        exact this
      · rw [selMax, hsel, hfold]
        exact hbound u hu n hn
  · cases hc : filteredStripped files date with
    | nil =>
      rw [selMax, selPick, hc] at h
      exact absurd h (by norm_num)
    | cons first rest =>
      have hsel : selPick files date = (filteredStripped files date).foldl pickStep (0, first) := by
        rw [selPick, hc]
      rcases pickFold_spec (filteredStripped files date) (0, first) with ⟨hfold, _⟩ |
          ⟨w, hw, m, hpv, hfold, hlt, _⟩
      · rw [selMax, hsel, hfold] at h
        exact absurd h (by norm_num)
      · rw [selMax, hsel, hfold] at h ⊢
        rw [chosenStripped, hsel, hfold]
        exact hpv
  · have hsel : selPick files date = (filteredStripped files date).foldl pickStep (0, first) := by
      rw [selPick, hf]
    rcases pickFold_spec (filteredStripped files date) (0, first) with ⟨hfold, _⟩ |
        ⟨w, hw, m, hpv, hfold, hlt, _⟩
    · rw [chosenStripped, hsel, hfold]
    · rw [selMax, hsel, hfold] at h0
      exact absurd (lt_of_le_of_lt (by norm_num : (0 : Int) ≤ 0) (lt_of_lt_of_le hlt h0)).false
        (by simp)

/-- The directory listing of the C3 witness: three of today's files
(largest sequence 3) and one unrelated file. -/
def cListing : List GoStr :=
  [strLit "2025-10-11_1.log", strLit "2025-10-11_3.log", strLit "2025-10-11_2.log",
   strLit "other.txt"]

/-- Witness for C3 (amended): an empty directory yields `<today>_1.log`;
on `cListing` the selection resumes the maximum `_3` (it does not create
`_4`), picking an existing entry, with create/append and no truncation. -/
theorem c3_witness :
    getUserLogFile [] (strLit "2025-10-11") =
      { name := strLit "2025-10-11" ++ strLit "_1" ++ strLit ".log",
        create := true, append := true, truncate := false } ∧
    chosenStripped cListing (strLit "2025-10-11") ∈ filteredStripped cListing (strLit "2025-10-11") ∧
    pickVal (chosenStripped cListing (strLit "2025-10-11")) =
      some (selMax cListing (strLit "2025-10-11")) ∧
    (getUserLogFile cListing (strLit "2025-10-11")).name =
      chosenStripped cListing (strLit "2025-10-11") ++ strLit ".log" ∧
    (getUserLogFile cListing (strLit "2025-10-11")).truncate = false :=
  ⟨(c3_selection_amended [] (strLit "2025-10-11")).1 (by decide),
   (c3_selection_amended cListing (strLit "2025-10-11")).2.1 (by decide),
   (c3_selection_amended cListing (strLit "2025-10-11")).2.2.2.1 (by decide),
   (c3_selection_amended cListing (strLit "2025-10-11")).2.2.2.2.2.1,
   (c3_selection_amended cListing (strLit "2025-10-11")).2.2.2.2.2.2.2.2⟩

/-! ### C6: the retention sweep -/

lemma removedNames_flatMap (cutoff : Int) (entries : List DirEntry)
    (hinfo : ∀ e ∈ entries, e.infoOk = true) :
    removedNames (entries.flatMap (sweepEntry cutoff)) =
      (entries.filter fun e =>
        hasSuf e.name (strLit ".log") && decide (e.modTime < cutoff) && e.removeOk).map
        DirEntry.name := by
  induction entries with
  | nil => rfl
  | cons e rest ih =>
    have he : e.infoOk = true := hinfo e (List.mem_cons_self e rest)
    have hrest : ∀ x ∈ rest, x.infoOk = true := fun x hx => hinfo x (List.mem_cons_of_mem e hx)
    rw [List.flatMap_cons, List.filter_cons]
    unfold removedNames at ih ⊢
    rw [List.filterMap_append, ih hrest]
    by_cases hsuf : hasSuf e.name (strLit ".log") <;>
      by_cases hold : e.modTime < cutoff <;>
        by_cases hrm : e.removeOk = true <;>
          simp [sweepEntry, hsuf, he, hold, hrm]

lemma removalAttempts_flatMap (cutoff : Int) (entries : List DirEntry)
    (hinfo : ∀ e ∈ entries, e.infoOk = true) :
    removalAttempts (entries.flatMap (sweepEntry cutoff)) =
      (entries.filter fun e =>
        hasSuf e.name (strLit ".log") && decide (e.modTime < cutoff)).map DirEntry.name := by
  induction entries with
  | nil => rfl
  | cons e rest ih =>
    have he : e.infoOk = true := hinfo e (List.mem_cons_self e rest)
    have hrest : ∀ x ∈ rest, x.infoOk = true := fun x hx => hinfo x (List.mem_cons_of_mem e hx)
    rw [List.flatMap_cons, List.filter_cons]
    unfold removalAttempts at ih ⊢
    rw [List.filterMap_append, ih hrest]
    by_cases hsuf : hasSuf e.name (strLit ".log") <;>
      by_cases hold : e.modTime < cutoff <;>
        by_cases hrm : e.removeOk = true <;>
          simp [sweepEntry, hsuf, he, hold, hrm]

lemma sweep_effects_only_logs (cutoff : Int) (entries : List DirEntry) :
    ∀ eff ∈ entries.flatMap (sweepEntry cutoff), hasSuf eff.name (strLit ".log") = true := by
  induction entries with
  | nil => simp
  | cons e rest ih =>
    intro eff heff
    rw [List.flatMap_cons, List.mem_append] at heff
    rcases heff with heff | heff
    · by_cases hsuf : hasSuf e.name (strLit ".log") <;>
        by_cases hio : e.infoOk = true <;>
          by_cases hold : e.modTime < cutoff <;>
            by_cases hrm : e.removeOk = true <;>
              simp [sweepEntry, hsuf, hio, hold, hrm] at heff <;>
                first
                  | (rcases heff with h | h <;> simp [SweepEffect.name, h, hsuf])
                  | simp [SweepEffect.name, heff, hsuf]
    · exact ih eff heff

/-- C6: the sweep is an immediate success when `maxAgeDays <= 0`;
otherwise (with readable metadata) it attempts to delete exactly the
`.log`-suffixed entries older than the cutoff, actually deletes those of
them whose removal succeeds, never inspects or touches a non-`.log`
entry, and reports success even when individual removals fail. -/
theorem c6_retention_sweep (maxAgeDays : Int) (readDirOk : Bool) (entries : List DirEntry)
    (cutoff : Int) :
    (maxAgeDays ≤ 0 → cleanupOldLogs maxAgeDays readDirOk entries cutoff = (true, [])) ∧
    (0 < maxAgeDays → readDirOk = true →
      (cleanupOldLogs maxAgeDays readDirOk entries cutoff).1 = true) ∧
    (0 < maxAgeDays → readDirOk = true → (∀ e ∈ entries, e.infoOk = true) →
      removedNames (cleanupOldLogs maxAgeDays readDirOk entries cutoff).2 =
        (entries.filter fun e =>
          hasSuf e.name (strLit ".log") && decide (e.modTime < cutoff) && e.removeOk).map
          DirEntry.name ∧
      removalAttempts (cleanupOldLogs maxAgeDays readDirOk entries cutoff).2 =
        (entries.filter fun e =>
          hasSuf e.name (strLit ".log") && decide (e.modTime < cutoff)).map DirEntry.name) ∧
    (∀ eff ∈ (cleanupOldLogs maxAgeDays readDirOk entries cutoff).2,
      hasSuf eff.name (strLit ".log") = true) := by
  refine ⟨fun h => ?_, fun h hrd => ?_, fun h hrd hinfo => ?_, fun eff heff => ?_⟩
  · simp [cleanupOldLogs, h]
  · simp [cleanupOldLogs, not_le.mpr h, hrd]
  · have hne : ¬ maxAgeDays ≤ 0 := not_le.mpr h
    constructor
    · rw [cleanupOldLogs, if_neg hne, if_neg (by simp [hrd])]
      exact removedNames_flatMap cutoff entries hinfo
    · rw [cleanupOldLogs, if_neg hne, if_neg (by simp [hrd])]
      exact removalAttempts_flatMap cutoff entries hinfo
  · by_cases h0 : maxAgeDays ≤ 0
    · simp [cleanupOldLogs, h0] at heff
    · by_cases hrd : readDirOk = true
      · rw [cleanupOldLogs, if_neg h0, if_neg (by simp [hrd])] at heff
        exact sweep_effects_only_logs cutoff entries eff heff
      · simp [cleanupOldLogs, h0, hrd] at heff

/-- A ten-day-old log file whose removal succeeds. -/
def cOldLog : DirEntry := { name := strLit "2025-10-01_1.log", infoOk := true, modTime := 100, removeOk := true }

/-- A recent log file. -/
def cNewLog : DirEntry := { name := strLit "2025-11-10_1.log", infoOk := true, modTime := 900, removeOk := true }

/-- A non-log file older than the cutoff. -/
def cTxtFile : DirEntry := { name := strLit "data.txt", infoOk := true, modTime := 50, removeOk := true }

/-- An old log file whose removal fails. -/
def cStuckLog : DirEntry := { name := strLit "2025-10-02_1.log", infoOk := true, modTime := 120, removeOk := false }

/-- Witness for C6: with `maxAgeDays = 7` and a cutoff of 500, only the
old `.log` entries are attempted, the non-log and recent files are left
alone, the stuck removal does not abort the sweep, and `maxAgeDays = 0`
does nothing. -/
theorem c6_witness :
    cleanupOldLogs 0 true [cOldLog, cNewLog, cTxtFile, cStuckLog] 500 = (true, []) ∧
    (cleanupOldLogs 7 true [cOldLog, cNewLog, cTxtFile, cStuckLog] 500).1 = true ∧
    removedNames (cleanupOldLogs 7 true [cOldLog, cNewLog, cTxtFile, cStuckLog] 500).2 =
      [cOldLog.name] ∧
    removalAttempts (cleanupOldLogs 7 true [cOldLog, cNewLog, cTxtFile, cStuckLog] 500).2 =
      [cOldLog.name, cStuckLog.name] := by
  have h := c6_retention_sweep 7 true [cOldLog, cNewLog, cTxtFile, cStuckLog] 500
  refine ⟨(c6_retention_sweep 0 true [cOldLog, cNewLog, cTxtFile, cStuckLog] 500).1 (by decide),
    h.2.1 (by decide) rfl, ?_, ?_⟩
  · rw [(h.2.2.1 (by decide) rfl (by decide)).1]
    decide
  · rw [(h.2.2.1 (by decide) rfl (by decide)).2]
    decide

/-! ### C10: Warn logs the token WARNING -/

/-- C10: an accepted `LogWarnWith` call formats its event with the level
string `"WARNING"` (not `"WARN"`): in text mode the payload echoed and
appended is `WARNING <...>`, and in JSON mode the call hands `"WARNING"`
to the formatter, whose entry map binds the `level` key to `"WARNING"`
whenever the fields do not themselves override `level`. -/
theorem c10_warning_token (l l' : FileLogger) (env : Env) (msg : GoStr) (fields : Fields) :
    (l.minLevel.toInt ≤ LogLevel.warn.toInt → l.format = .text →
      refreshLogFile l env = .ok l' →
      logWarnWith l env msg fields =
        some (l', [Effect.consoleLine (formatMessage .text env (strLit "WARNING") msg fields),
          Effect.fileAppend l'.currentFileName
            (env.stamp ++ formatMessage .text env (strLit "WARNING") msg fields ++ ['\n'])])) ∧
    (∃ rest, formatMessage .text env (strLit "WARNING") msg fields =
      strLit "WARNING" ++ ' ' :: rest) ∧
    (l.minLevel.toInt ≤ LogLevel.warn.toInt → l.format = .json →
      refreshLogFile l env = .ok l' →
      logWarnWith l env msg fields =
        some (l', [Effect.consoleLine (formatMessage .json env (strLit "WARNING") msg fields),
          Effect.fileAppend l'.currentFileName
            (env.stamp ++ formatMessage .json env (strLit "WARNING") msg fields ++ ['\n'])])) ∧
    (strLit "level" ∉ fields.map Prod.fst →
      mapLookup (mergeFields (reservedEntry env (strLit "WARNING") msg) fields)
        (strLit "level") = some (.jstr (strLit "WARNING"))) := by
  refine ⟨fun hlvl hfmt h => ?_, ?_, fun hlvl hfmt h => ?_, fun hmem => ?_⟩
  · have hg : ¬ (l.minLevel.toInt > LogLevel.warn.toInt) := not_lt.mpr hlvl
    simp [logWarnWith, hg, hfmt, logToFile, h]
  · cases fields with
    | nil => exact ⟨msg, rfl⟩
    | cons p ps =>
      exact ⟨msg ++ ' ' ::
        joinSep [' '] ((p :: ps).map fun q => q.1 ++ '=' :: jvalText q.2), rfl⟩
  · have hg : ¬ (l.minLevel.toInt > LogLevel.warn.toInt) := not_lt.mpr hlvl
    simp [logWarnWith, hg, hfmt, logToFile, h]
  · rw [mergeFields_lookup_not_mem fields (reservedEntry env (strLit "WARNING") msg)
      (strLit "level") hmem]
    rfl

/-- A text-mode logger at Debug level used by the C10 witness. -/
def cWarnLogger : FileLogger := { cFixLogger with minLevel := .debug }

/-- Witness for C10: a concrete accepted warn call in text mode carries
the `WARNING` payload, and the JSON entry map binds `level` to
`WARNING`. -/
theorem c10_witness :
    logWarnWith cWarnLogger cFixEnv (strLit "low disk") [] =
      some (cWarnLogger,
        [Effect.consoleLine (formatMessage .text cFixEnv (strLit "WARNING")
          (strLit "low disk") []),
         Effect.fileAppend cWarnLogger.currentFileName
           (cFixEnv.stamp ++ formatMessage .text cFixEnv (strLit "WARNING")
             (strLit "low disk") [] ++ ['\n'])]) ∧
    mapLookup (mergeFields (reservedEntry cFixEnv (strLit "WARNING") (strLit "low disk"))
        cFields) (strLit "level") = some (.jstr (strLit "WARNING")) :=
  ⟨(c10_warning_token cWarnLogger cWarnLogger cFixEnv (strLit "low disk") []).1
      (by decide) rfl (by decide),
   (c10_warning_token cWarnLogger cWarnLogger cFixEnv (strLit "low disk")
      cFields).2.2.2 (by decide)⟩

/-! ### C8: the text-mode line -/

/-- A text-mode logger at Debug level with today's `_1` file active. -/
def cTextLogger : FileLogger := { cFixLogger with minLevel := .debug }

/-- C8 counterexample: an accepted Info event in text mode on a concrete
logger.  The payload is `INFO hello`, but the line appended to the log
file is the standard-library timestamp header followed by the payload and
a newline — not exactly `INFO hello` as the claim states. -/
theorem c8_counterexample :
    logInfoWith cTextLogger cFixEnv (strLit "hello") [] =
      some (cTextLogger,
        [Effect.consoleLine (strLit "INFO hello"),
         Effect.fileAppend (strLit "2025-10-11_1.log")
           (strLit "2025/10/11 10:30:00 INFO hello" ++ ['\n'])]) ∧
    strLit "2025/10/11 10:30:00 INFO hello" ++ ['\n'] ≠ strLit "INFO hello" := by
  exact ⟨by decide, by decide⟩

/-- C8 amended: in text mode the *payload* of an accepted event is
exactly `<LEVEL> <message>` when the field map is empty, and otherwise
that string followed by space-separated `key=value` tokens in map order;
the single line appended to the log file per event is that payload
prefixed by the `log.LstdFlags` timestamp header and terminated by a
newline — nothing else is added. -/
theorem c8_line_format_amended (l l' : FileLogger) (env : Env) (lvl msg : GoStr)
    (fields : Fields) :
    (formatMessage .text env lvl msg [] = lvl ++ ' ' :: msg) ∧
    (fields ≠ [] → formatMessage .text env lvl msg fields =
      lvl ++ ' ' :: msg ++ ' ' ::
        joinSep [' '] (fields.map fun p => p.1 ++ '=' :: jvalText p.2)) ∧
    (refreshLogFile l env = .ok l' →
      logToFile l env (formatMessage .text env lvl msg fields) =
        some (l', [Effect.fileAppend l'.currentFileName
          (env.stamp ++ formatMessage .text env lvl msg fields ++ ['\n'])])) ∧
    (l.format = .text → l.minLevel.toInt ≤ LogLevel.info.toInt →
      refreshLogFile l env = .ok l' →
      logInfoWith l env msg fields =
        some (l', [Effect.consoleLine (formatMessage .text env (strLit "INFO") msg fields),
          Effect.fileAppend l'.currentFileName
            (env.stamp ++ formatMessage .text env (strLit "INFO") msg fields ++ ['\n'])])) := by
  refine ⟨rfl, fun h => ?_, fun h => ?_, fun hfmt hlvl h => ?_⟩
  · cases fields with
    | nil => exact absurd rfl h
    | cons p ps => rfl
  · simp [logToFile, h]
  · have hg : ¬ (l.minLevel.toInt > LogLevel.info.toInt) := not_lt.mpr hlvl
    simp [logInfoWith, hg, hfmt, logToFile, h]

/-- Witness for C8 (amended) at a concrete accepted Info event with one
field. -/
theorem c8_witness :
    formatMessage .text cFixEnv (strLit "INFO") (strLit "hi") [] =
      strLit "INFO" ++ ' ' :: strLit "hi" ∧
    logInfoWith cTextLogger cFixEnv (strLit "hi") [(strLit "user_id", .jint 123)] =
      some (cTextLogger,
        [Effect.consoleLine (formatMessage .text cFixEnv (strLit "INFO") (strLit "hi")
          [(strLit "user_id", .jint 123)]),
         Effect.fileAppend cTextLogger.currentFileName
           (cFixEnv.stamp ++ formatMessage .text cFixEnv (strLit "INFO") (strLit "hi")
             [(strLit "user_id", .jint 123)] ++ ['\n'])]) :=
  ⟨(c8_line_format_amended cTextLogger cTextLogger cFixEnv (strLit "INFO") (strLit "hi") []).1,
   (c8_line_format_amended cTextLogger cTextLogger cFixEnv (strLit "INFO") (strLit "hi")
       [(strLit "user_id", .jint 123)]).2.2.2 rfl (by decide) (by decide)⟩

/-! ### C7: Fatal always terminates -/

/-- C7: `LogFatalWith` never returns control: for every logger
configuration (any of the five `minLevel` values) and every environment —
including ones where the rotation, and hence the persist attempt, fails —
the call either dies in a propagating panic or ends in `os.Exit(1)`, the
last effect of its trace. -/
theorem c7_fatal_terminates (l : FileLogger) (env : Env) (errMsg : GoStr) (fields : Fields) :
    logFatalWith l env errMsg fields = none ∨
    ∃ p : FileLogger × List Effect,
      logFatalWith l env errMsg fields = some p ∧ p.2.getLast? = some Effect.exitProcess := by
  have hg : ¬ (l.minLevel.toInt > LogLevel.fatal.toInt) := by
    cases l.minLevel <;> decide
  cases h : logToFile l env (formatMessage l.format env (strLit "FATAL") errMsg fields) with
  | none =>
    left
    simp [logFatalWith, hg, h]
  | some p =>
    obtain ⟨l', effs⟩ := p
    right
    refine ⟨(l', effs ++ [.consoleLine (formatMessage l.format env (strLit "FATAL") errMsg fields),
      .exitProcess]), ?_, getLast?_append_pair effs _ _⟩
    simp [logFatalWith, hg, h]



